import Mathlib

/-!
Verification of the bark recorder/viewer pair (`src/main.rs`, `src/bin/viewer.rs`)
against its natural-language specification.

Shallow-embedding conventions used throughout this development:

* Wall-clock timestamps are modelled by their local calendar fields
  (`Timestamp`); the `chrono` `Local` time zone is treated as a fixed
  offset, so naive-field equality coincides with instant equality.
* File names are modelled as `List Char`.
* `f32`/`f64` values are modelled as exact rationals (`ℚ`); Rust's
  `as i64`/`as i16` casts are modelled as truncation toward zero with
  saturation, matching Rust's saturating float-to-int cast semantics.
* Rust `i64`/`i16` division `/` truncates toward zero, so it is modelled
  by `Int.tdiv` (not Lean's `/`, which is Euclidean).
* Monotonic instants (`std::time::Instant`) are modelled as integer
  seconds; `elapsed()` at time `now` since instant `t` is `now - t`.
-/

/-! ## Filename timestamp codec

`main.rs` line 39-40 builds the file name
`format!("barks/bark_{}.wav", Local::now().format("%Y%m%d_%I_%M_%S_%P"))`;
`viewer.rs` lines 96-99 recover the timestamp with
`NaiveDateTime::parse_from_str(name, "%Y%m%d_%I_%M_%S_%P")` after stripping
the `bark_` prefix and `.wav` suffix.  The chrono format directives are
embedded directly: `%Y` four-digit year, `%m`/`%d`/`%I`/`%M`/`%S` two-digit
zero-padded fields (`%I` is the 12-hour clock, 01-12), `%P` the lowercase
`am`/`pm` marker.  The parser model accepts exactly the grammar chrono
accepts on such fixed-width payloads, including calendar validation. -/

structure Timestamp where
  year : ℕ
  month : ℕ
  day : ℕ
  hour : ℕ
  minute : ℕ
  second : ℕ
deriving DecidableEq, Repr

/-- Gregorian leap-year rule, as implemented by chrono's calendar validation. -/
def isLeapYear (y : ℕ) : Bool :=
  y % 4 == 0 && (y % 100 != 0 || y % 400 == 0)

/-- Number of days of month `m` in year `y` (chrono calendar validation). -/
def daysInMonth (y m : ℕ) : ℕ :=
  if m = 2 then (if isLeapYear y then 29 else 28)
  else if m = 4 ∨ m = 6 ∨ m = 9 ∨ m = 11 then 30
  else 31

/-- A timestamp representable by the `%Y%m%d_%I_%M_%S_%P` format: a valid
calendar date with a four-digit year, truncated to whole seconds. -/
def validTimestamp (t : Timestamp) : Prop :=
  t.year ≤ 9999 ∧ 1 ≤ t.month ∧ t.month ≤ 12 ∧ 1 ≤ t.day ∧
    t.day ≤ daysInMonth t.year t.month ∧ t.hour ≤ 23 ∧ t.minute ≤ 59 ∧
    t.second ≤ 59

instance (t : Timestamp) : Decidable (validTimestamp t) := by
  unfold validTimestamp; infer_instance

def digitToChar (n : ℕ) : Char := Char.ofNat (48 + n)

def charToDigit (c : Char) : Option ℕ :=
  if 48 ≤ c.toNat ∧ c.toNat ≤ 57 then some (c.toNat - 48) else none

/-- Two-digit zero-padded decimal rendering (`%m`, `%d`, `%I`, `%M`, `%S`). -/
def pad2 (n : ℕ) : List Char := [digitToChar (n / 10), digitToChar (n % 10)]

/-- Four-digit zero-padded decimal rendering (`%Y` for years 0-9999). -/
def pad4 (n : ℕ) : List Char := pad2 (n / 100) ++ pad2 (n % 100)

/-- The 12-hour clock value printed by `%I`: hours 0 and 12 print as 12. -/
def hour12 (h : ℕ) : ℕ := if h % 12 = 0 then 12 else h % 12

/-- The lowercase am/pm marker printed by `%P`. -/
def meridiem (h : ℕ) : List Char := if h < 12 then ['a', 'm'] else ['p', 'm']

/-- The payload `Local::now().format("%Y%m%d_%I_%M_%S_%P")` of `main.rs:39`. -/
def encodePayload (t : Timestamp) : List Char :=
  pad4 t.year ++ pad2 t.month ++ pad2 t.day ++
    '_' :: pad2 (hour12 t.hour) ++ '_' :: pad2 t.minute ++
    '_' :: pad2 t.second ++ '_' :: meridiem t.hour

/-- The file name `format!("bark_{}.wav", timestamp)` of `main.rs:40`
(directory part omitted; the scan works on bare file names). -/
def encodeFilename (t : Timestamp) : List Char :=
  ['b', 'a', 'r', 'k', '_'] ++ encodePayload t ++ ['.', 'w', 'a', 'v']

/-- Read exactly two decimal digits (chrono numeric field of width 2). -/
def read2 : List Char → Option (ℕ × List Char)
  | c1 :: c2 :: rest =>
    (charToDigit c1).bind fun d1 =>
      (charToDigit c2).bind fun d2 => some (d1 * 10 + d2, rest)
  | _ => none

/-- Read exactly four decimal digits (chrono `%Y` on four-digit years). -/
def read4 (cs : List Char) : Option (ℕ × List Char) :=
  (read2 cs).bind fun (hi, cs) =>
    (read2 cs).bind fun (lo, cs) => some (hi * 100 + lo, cs)

/-- Consume the literal `_` separator of the format string. -/
def readSep : List Char → Option (List Char)
  | '_' :: rest => some rest
  | _ => none

/-- Consume the `%P` marker; `true` means pm. -/
def readMeridiem : List Char → Option (Bool × List Char)
  | 'a' :: 'm' :: rest => some (false, rest)
  | 'p' :: 'm' :: rest => some (true, rest)
  | _ => none

theorem readSep_cons (r : List Char) : readSep ('_' :: r) = some r := rfl

theorem readMeridiem_am (r : List Char) :
    readMeridiem ('a' :: 'm' :: r) = some (false, r) := rfl

theorem readMeridiem_pm (r : List Char) :
    readMeridiem ('p' :: 'm' :: r) = some (true, r) := rfl

/-- Rebuild the 24-hour clock value from `%I` and `%P` as chrono does. -/
def hourFrom12 (h12 : ℕ) (pm : Bool) : ℕ :=
  if pm then h12 % 12 + 12 else h12 % 12

/-- Model of `NaiveDateTime::parse_from_str(payload, "%Y%m%d_%I_%M_%S_%P")`
(`viewer.rs:96-99`): parse the fixed-width fields and validate them as a
calendar date/time, rejecting trailing input. -/
def parseTimestampPayload (cs : List Char) : Option Timestamp :=
  (read4 cs).bind fun (y, cs) =>
  (read2 cs).bind fun (mo, cs) =>
  (read2 cs).bind fun (d, cs) =>
  (readSep cs).bind fun cs =>
  (read2 cs).bind fun (h12, cs) =>
  (readSep cs).bind fun cs =>
  (read2 cs).bind fun (mi, cs) =>
  (readSep cs).bind fun cs =>
  (read2 cs).bind fun (se, cs) =>
  (readSep cs).bind fun cs =>
  (readMeridiem cs).bind fun (pm, cs) =>
  if cs = [] ∧ 1 ≤ mo ∧ mo ≤ 12 ∧ 1 ≤ d ∧ d ≤ daysInMonth y mo ∧
      1 ≤ h12 ∧ h12 ≤ 12 ∧ mi ≤ 59 ∧ se ≤ 59 then
    some ⟨y, mo, d, hourFrom12 h12 pm, mi, se⟩
  else none

/-- Model of the filename handling in `viewer.rs:65-99`: match the `bark_`
prefix, strip the `.wav` suffix, and parse the remaining payload. -/
def decodeFilename (cs : List Char) : Option Timestamp :=
  match cs with
  | 'b' :: 'a' :: 'r' :: 'k' :: '_' :: rest =>
    match rest.reverse with
    | 'v' :: 'a' :: 'w' :: '.' :: payloadRev =>
      parseTimestampPayload payloadRev.reverse
    | _ => none
  | _ => none

theorem charToDigit_digitToChar : ∀ d : ℕ, d < 10 →
    charToDigit (digitToChar d) = some d := by decide

theorem read2_pad2 {n : ℕ} (h : n < 100) (r : List Char) :
    read2 (pad2 n ++ r) = some (n, r) := by
  have h1 : n / 10 < 10 := by omega
  have h2 : n % 10 < 10 := by omega
  have harith : n / 10 * 10 + n % 10 = n := by omega
  simp only [pad2, List.cons_append, List.nil_append, read2,
    charToDigit_digitToChar _ h1, charToDigit_digitToChar _ h2,
    Option.some_bind, harith]

theorem read4_pad4 {n : ℕ} (h : n < 10000) (r : List Char) :
    read4 (pad4 n ++ r) = some (n, r) := by
  have h1 : n / 100 < 100 := by omega
  have h2 : n % 100 < 100 := by omega
  have harith : n / 100 * 100 + n % 100 = n := by omega
  simp only [pad4, List.append_assoc, read4, read2_pad2 h1, read2_pad2 h2,
    Option.some_bind, harith]

theorem hour12_bounds : ∀ h : ℕ, h < 24 → 1 ≤ hour12 h ∧ hour12 h ≤ 12 := by
  decide

theorem hourFrom12_hour12_lo : ∀ h : ℕ, h < 12 →
    hourFrom12 (hour12 h) false = h := by decide

theorem hourFrom12_hour12_hi : ∀ h : ℕ, 12 ≤ h → h < 24 →
    hourFrom12 (hour12 h) true = h := by decide

theorem decodeFilename_bark_wav (p : List Char) :
    decodeFilename (['b', 'a', 'r', 'k', '_'] ++ p ++ ['.', 'w', 'a', 'v']) =
      parseTimestampPayload p := by
  simp only [List.cons_append, List.nil_append, decodeFilename]
  rw [show (p ++ ['.', 'w', 'a', 'v']).reverse =
      'v' :: 'a' :: 'w' :: '.' :: p.reverse by simp]
  simp

theorem parse_encodePayload (t : Timestamp) (hv : validTimestamp t) :
    parseTimestampPayload (encodePayload t) = some t := by
  obtain ⟨hy, hm1, hm2, hd1, hd2, hh, hmi, hse⟩ := hv
  have hy' : t.year < 10000 := by omega
  have hmo' : t.month < 100 := by omega
  have hd' : t.day < 100 := by
    have : daysInMonth t.year t.month ≤ 31 := by
      unfold daysInMonth
      split
      · split <;> omega
      · split <;> omega
    omega
  have hh12 := hour12_bounds t.hour (by omega)
  have hh12' : hour12 t.hour < 100 := by omega
  have hmi' : t.minute < 100 := by omega
  have hse' : t.second < 100 := by omega
  have hassoc : encodePayload t =
      pad4 t.year ++ (pad2 t.month ++ (pad2 t.day ++
      '_' :: (pad2 (hour12 t.hour) ++ '_' :: (pad2 t.minute ++
      '_' :: (pad2 t.second ++ '_' :: meridiem t.hour))))) := by
    simp [encodePayload, List.append_assoc]
  rw [hassoc]
  by_cases hlt : t.hour < 12
  · have hmer : meridiem t.hour = ['a', 'm'] := by simp [meridiem, hlt]
    rw [hmer]
    simp only [parseTimestampPayload, read4_pad4 hy', Option.some_bind,
      read2_pad2 hmo', read2_pad2 hd', read2_pad2 hh12', read2_pad2 hmi',
      read2_pad2 hse', readSep_cons, readMeridiem_am]
    rw [if_pos ⟨trivial, hm1, hm2, hd1, hd2, hh12.1, hh12.2, hmi, hse⟩,
      hourFrom12_hour12_lo t.hour hlt]
  · have hmer : meridiem t.hour = ['p', 'm'] := by simp [meridiem, hlt]
    rw [hmer]
    simp only [parseTimestampPayload, read4_pad4 hy', Option.some_bind,
      read2_pad2 hmo', read2_pad2 hd', read2_pad2 hh12', read2_pad2 hmi',
      read2_pad2 hse', readSep_cons, readMeridiem_pm]
    rw [if_pos ⟨trivial, hm1, hm2, hd1, hd2, hh12.1, hh12.2, hmi, hse⟩,
      hourFrom12_hour12_hi t.hour (by omega) (by omega)]

/-- C1: codec round-trip.  For every valid timestamp truncated to whole
seconds, decoding the encoded file name (fixed `bark_` prefix, fields in
`%Y%m%d_%I_%M_%S_%P` order joined by `_`, `.wav` suffix) yields exactly the
original timestamp: `decode (encode t) = t`. -/
theorem codec_round_trip (t : Timestamp) (hv : validTimestamp t) :
    decodeFilename (encodeFilename t) = some t := by
  rw [encodeFilename, decodeFilename_bark_wav, parse_encodePayload t hv]

/-- Witness for `codec_round_trip` at the concrete timestamp
2024-01-02 13:30:05. -/
theorem codec_round_trip_witness :
    validTimestamp ⟨2024, 1, 2, 13, 30, 5⟩ ∧
      decodeFilename (encodeFilename ⟨2024, 1, 2, 13, 30, 5⟩) =
        some ⟨2024, 1, 2, 13, 30, 5⟩ :=
  ⟨by decide, codec_round_trip ⟨2024, 1, 2, 13, 30, 5⟩ (by decide)⟩


/-! ## Amplitude event detector and recorder

Model of the audio-input callback of `main.rs:26-69`.  A chunk is a pair of
the current monotonic instant (integer seconds) and the list of `f32`
samples (exact rationals).  The shared state `recording` / `last_bark_time` /
`writer` becomes the `RecState` record; the WAV writer is modelled by the
list of 16-bit samples written so far.  Opening a file emits
`RecEvent.started`, closing it emits `RecEvent.finished` (the printed
"Started recording" / "Finished recording" transitions). -/

/-- The `THRESHOLD: f32 = 0.05` constant of `main.rs:8`. -/
def THRESHOLD : ℚ := Rat.divInt 1 20

/-- The constant indeed denotes 0.05. -/
theorem THRESHOLD_eq : THRESHOLD = 0.05 := by
  rw [THRESHOLD, Rat.divInt_eq_div]; norm_num

/-- The `MIN_BARK_DURATION = 5` seconds silence timeout of `main.rs:9`. -/
def MIN_BARK_DURATION : ℤ := 5

/-- Rust float-to-int `as` cast: truncation toward zero. -/
def truncToInt (q : ℚ) : ℤ := if 0 ≤ q then ⌊q⌋ else ⌈q⌉

/-- The peak amplitude `data.iter().map(|x| x.abs()).fold(0.0, f32::max)`
of `main.rs:27`. -/
def maxAmplitude (data : List ℚ) : ℚ :=
  (data.map (fun x => |x|)).foldl max 0

/-- The sample conversion `(sample * i16::MAX as f32) as i16` of
`main.rs:58`: multiply by 32767, truncate toward zero, saturate to the
`i16` range (Rust float-to-int casts saturate). -/
def convertSample (x : ℚ) : ℤ :=
  max (-32768) (min 32767 (truncToInt (x * 32767)))

/-- The shared mutable state of the callback: `recording`,
`last_bark_time`, and the open `hound::WavWriter` (modelled as the list of
`i16` samples written so far; `none` when no file is open). -/
structure RecState where
  isRecording : Bool
  lastBark : Option ℤ
  writer : Option (List ℤ)
deriving DecidableEq, Repr

/-- Observable transitions of the recorder: a file opened at instant `t`,
a file closed at instant `t`. -/
inductive RecEvent where
  | started (t : ℤ)
  | finished (t : ℤ)
deriving DecidableEq, Repr

/-- One invocation of the input-stream callback of `main.rs:26-69` on a
chunk `data` arriving at instant `now`, with `spc` the `samples_per_chunk`
bound of `main.rs:18`.  The `last_bark.unwrap()` of `main.rs:63` can only
be reached with `lastBark = some _` (recording implies a bark was seen);
the unreachable `none` arm is modelled as a no-stop. -/
def recStep (spc : ℕ) (st : RecState) (now : ℤ) (data : List ℚ) :
    RecState × List RecEvent :=
  let amp := maxAmplitude data
  let p : RecState × List RecEvent :=
    if THRESHOLD < amp then
      if st.isRecording then ({ st with lastBark := some now }, [])
      else (⟨true, some now, some []⟩, [RecEvent.started now])
    else (st, [])
  let st1 := p.1
  if st1.isRecording then
    let st2 : RecState :=
      { st1 with writer := st1.writer.map (· ++ (data.take spc).map convertSample) }
    match st1.lastBark with
    | some lb =>
      if MIN_BARK_DURATION < now - lb then
        ({ st2 with isRecording := false, writer := none },
          p.2 ++ [RecEvent.finished now])
      else (st2, p.2)
    | none => (st2, p.2)
  else (st1, p.2)

/-- Feeding a whole chunk stream through the callback, accumulating the
emitted transitions. -/
def runRec (spc : ℕ) (st : RecState) (chunks : List (ℤ × List ℚ)) :
    RecState × List RecEvent :=
  chunks.foldl (fun acc c =>
    let r := recStep spc acc.1 c.1 c.2
    (r.1, acc.2 ++ r.2)) (st, [])

/-- The state before any chunk has arrived: not recording, no bark seen,
no file open. -/
def initState : RecState := ⟨false, none, none⟩

/-- C2: detector hysteresis.  First conjunct: while recording, a chunk
below the threshold closes the event exactly when the elapsed time since
the last loud chunk exceeds the 5-second silence timeout.  Second
conjunct: a loud chunk while recording refreshes `last_bark_time` and
emits nothing (no second event starts).  Remaining conjuncts: the stream
with one loud chunk at t=0 and silence after yields exactly one event
(started at 0, finished on the first chunk past the timeout, at t=6, and
not before); the stream with loud chunks at t=0 and t=4 (within the
timeout) and silence after yields exactly one event, not two, closing at
t=10 because the second loud chunk refreshed `last_bark_time`. -/
theorem detector_hysteresis :
    (∀ (spc : ℕ) (st : RecState) (now lb : ℤ) (data : List ℚ),
        st.isRecording = true → st.lastBark = some lb →
        ¬ THRESHOLD < maxAmplitude data →
        (recStep spc st now data).2 =
            (if MIN_BARK_DURATION < now - lb then [RecEvent.finished now]
              else []) ∧
          ((recStep spc st now data).1.isRecording = false ↔
            MIN_BARK_DURATION < now - lb)) ∧
    (∀ (spc : ℕ) (st : RecState) (now : ℤ) (data : List ℚ),
        st.isRecording = true → THRESHOLD < maxAmplitude data →
        (recStep spc st now data).1.isRecording = true ∧
          (recStep spc st now data).1.lastBark = some now ∧
          (recStep spc st now data).2 = []) ∧
    (runRec 240000 initState
        [(0, [Rat.divInt 1 10]), (1, []), (2, []), (3, []), (4, []),
          (5, [])]).2 = [RecEvent.started 0] ∧
    (runRec 240000 initState
        [(0, [Rat.divInt 1 10]), (1, []), (2, []), (3, []), (4, []), (5, []),
          (6, [])]).2 = [RecEvent.started 0, RecEvent.finished 6] ∧
    (runRec 240000 initState
        [(0, [Rat.divInt 1 10]), (4, [Rat.divInt 1 10]), (5, []), (6, []),
          (7, []), (8, []), (9, [])]).2 = [RecEvent.started 0] ∧
    (runRec 240000 initState
        [(0, [Rat.divInt 1 10]), (4, [Rat.divInt 1 10]), (5, []), (6, []),
          (7, []), (8, []), (9, []), (10, [])]).2 =
      [RecEvent.started 0, RecEvent.finished 10] := by
  refine ⟨?_, ?_, by decide, by decide, by decide, by decide⟩
  · intro spc st now lb data h1 h2 h3
    rcases st with ⟨ir, lbk, wr⟩
    simp only [RecState.isRecording] at h1
    simp only [RecState.lastBark] at h2
    subst h1; subst h2
    by_cases hstop : MIN_BARK_DURATION < now - lb <;>
      simp [recStep, h3, hstop]
  · intro spc st now data h1 h2
    rcases st with ⟨ir, lbk, wr⟩
    simp only [RecState.isRecording] at h1
    subst h1
    simp [recStep, h2, MIN_BARK_DURATION]

/-- Witness for `detector_hysteresis`: a silent chunk at t=6 while
recording with last bark at t=0 emits the closing transition. -/
theorem detector_hysteresis_witness :
    (recStep 240000 ⟨true, some 0, some []⟩ 6 []).2 =
        (if MIN_BARK_DURATION < (6:ℤ) - 0 then [RecEvent.finished 6]
          else []) ∧
      ((recStep 240000 ⟨true, some 0, some []⟩ 6 []).1.isRecording = false ↔
        MIN_BARK_DURATION < (6:ℤ) - 0) :=
  detector_hysteresis.1 240000 ⟨true, some 0, some []⟩ 6 0 [] rfl rfl
    (by decide)

/-- C7 counterexample: the claim says samples are converted by
`round(sample * 32767)` and that no sample of the chunk is dropped.  The
code truncates instead of rounding: at sample 1/2 the written value is
16383 while rounding gives 16384.  And the write loop only takes the
first `samples_per_chunk` samples: with `samples_per_chunk = 2`, a
3-sample chunk writes only 2 values. -/
theorem sample_conversion_counterexample :
    convertSample (1/2) = 16383 ∧ round ((1/2 : ℚ) * 32767) = 16384 ∧
      (recStep 2 ⟨true, some 0, some []⟩ 1 [1/2, 1/2, 1/2]).1.writer =
        some [16383, 16383] := by
  have hfloor : (⌊(1:ℚ)/2 * 32767⌋ : ℤ) = 16383 := by norm_num
  have hconv : convertSample (1/2) = 16383 := by
    rw [convertSample, truncToInt, if_pos (by norm_num), hfloor]
    decide
  have hthr : THRESHOLD < maxAmplitude [1/2, 1/2, 1/2] := by
    rw [THRESHOLD, Rat.divInt_eq_div]
    norm_num [maxAmplitude, abs_of_nonneg, max_def]
  refine ⟨hconv, by norm_num [round_eq], ?_⟩
  simp [recStep, hthr, hconv, MIN_BARK_DURATION, -one_div]

/-- C7 amended: on a chunk received while the detector is Active, each of
the first `samples_per_chunk` samples is converted by truncating
`sample * 32767` toward zero (not rounding), saturated to the `i16`
range, and appended in order to the open sink; samples beyond
`samples_per_chunk` are dropped; when the chunk closes the event the sink
is closed.  The second conjunct states the saturation bounds. -/
theorem sample_conversion_amended :
    (∀ (spc : ℕ) (st : RecState) (now lb : ℤ) (w : List ℤ) (data : List ℚ),
        st.isRecording = true → st.lastBark = some lb → st.writer = some w →
        ((recStep spc st now data).1.isRecording = true →
            (recStep spc st now data).1.writer =
              some (w ++ (data.take spc).map convertSample)) ∧
          ((recStep spc st now data).1.isRecording = false →
            (recStep spc st now data).1.writer = none)) ∧
    (∀ x : ℚ, -32768 ≤ convertSample x ∧ convertSample x ≤ 32767) := by
  constructor
  · intro spc st now lb w data h1 h2 h3
    rcases st with ⟨ir, lbk, wr⟩
    simp only [RecState.isRecording] at h1
    simp only [RecState.lastBark] at h2
    simp only [RecState.writer] at h3
    subst h1; subst h2; subst h3
    by_cases hl : THRESHOLD < maxAmplitude data
    · simp [recStep, hl, MIN_BARK_DURATION]
    · by_cases hstop : MIN_BARK_DURATION < now - lb <;>
        simp [recStep, hl, hstop]
  · intro x
    exact ⟨le_max_left _ _, max_le (by norm_num) (min_le_left _ _)⟩

/-- Witness for `sample_conversion_amended`: an empty chunk at t=1 while
recording with the sink open and last bark at t=0. -/
theorem sample_conversion_amended_witness :
    ((recStep 2 ⟨true, some 0, some []⟩ 1 []).1.isRecording = true →
        (recStep 2 ⟨true, some 0, some []⟩ 1 []).1.writer =
          some ([] ++ (([] : List ℚ).take 2).map convertSample)) ∧
      ((recStep 2 ⟨true, some 0, some []⟩ 1 []).1.isRecording = false →
        (recStep 2 ⟨true, some 0, some []⟩ 1 []).1.writer = none) :=
  sample_conversion_amended.1 2 ⟨true, some 0, some []⟩ 1 0 [] [] rfl rfl rfl

/-! ## Audio statistics analyzer

Model of the sample analysis of `viewer.rs` (the inline block at lines
72-94 of `BarkViewer::new`, identical to `Recording::analyze_audio` at
lines 29-52): decode `i16` samples, normalize by `i16::MAX = 32767`, take
absolute values, sort ascending, and read the five-number summary at the
positional indices `0`, `len/4`, `len/2`, `3*len/4`, `len-1`.  The sort
`sort_by(partial_cmp)` is embedded as `List.insertionSort (· ≤ ·)`: on a
linear order any comparison sort produces the same (unique) sorted list. -/

/-- Five-number summary of a list of (already normalized) samples:
absolute values, ascending sort, positional quartiles; `none` when the
sample sequence is empty (`viewer.rs:79-93`). -/
def analyzeSamples (samples : List ℚ) : Option (ℚ × ℚ × ℚ × ℚ × ℚ) :=
  let xs := samples.map (fun s => |s|)
  if xs.isEmpty then none
  else
    let sorted := List.insertionSort (· ≤ ·) xs
    let len := sorted.length
    some (sorted.getD 0 0, sorted.getD (len / 4) 0, sorted.getD (len / 2) 0,
      sorted.getD (3 * len / 4) 0, sorted.getD (len - 1) 0)

/-- The normalization `s as f32 / i16::MAX as f32` of `viewer.rs:75`. -/
def normalizeSample (s : ℤ) : ℚ := Rat.divInt s 32767

/-- Full statistics pipeline on the decoded `i16` payload samples
(`viewer.rs:73-94`). -/
def audioStats (raw : List ℤ) : Option (ℚ × ℚ × ℚ × ℚ × ℚ) :=
  analyzeSamples (raw.map normalizeSample)

theorem analyzeSamples_eq (xs : List ℚ) (h : ¬ xs = []) :
    analyzeSamples xs =
      some ((List.insertionSort (· ≤ ·) (xs.map (fun s => |s|))).getD 0 0,
        (List.insertionSort (· ≤ ·) (xs.map (fun s => |s|))).getD
          ((List.insertionSort (· ≤ ·) (xs.map (fun s => |s|))).length / 4) 0,
        (List.insertionSort (· ≤ ·) (xs.map (fun s => |s|))).getD
          ((List.insertionSort (· ≤ ·) (xs.map (fun s => |s|))).length / 2) 0,
        (List.insertionSort (· ≤ ·) (xs.map (fun s => |s|))).getD
          (3 * (List.insertionSort (· ≤ ·) (xs.map (fun s => |s|))).length / 4) 0,
        (List.insertionSort (· ≤ ·) (xs.map (fun s => |s|))).getD
          ((List.insertionSort (· ≤ ·) (xs.map (fun s => |s|))).length - 1) 0) := by
  rw [analyzeSamples]
  simp only [List.isEmpty_iff, List.map_eq_nil_iff]
  rw [if_neg h]

theorem length_insertionSort_map_abs (xs : List ℚ) :
    (List.insertionSort (· ≤ ·) (xs.map (fun s => |s|))).length = xs.length := by
  rw [(List.perm_insertionSort _ _).length_eq, List.length_map]

theorem getD_insertionSort_mem (xs : List ℚ) (k : ℕ) (hk : k < xs.length) :
    (List.insertionSort (· ≤ ·) (xs.map (fun s => |s|))).getD k 0 ∈
      xs.map (fun s => |s|) := by
  have hlen : k < (List.insertionSort (· ≤ ·) (xs.map (fun s => |s|))).length := by
    rw [length_insertionSort_map_abs]; exact hk
  rw [List.getD_eq_getElem _ _ hlen]
  exact (List.perm_insertionSort _ _).mem_iff.mp (List.getElem_mem hlen)

/-- C3: quartile computation.  For every non-empty sample sequence the
analyzer returns the positional five-number summary of the ascending sort
of the absolute values (the sorted list being a sorted permutation of the
absolute-value list); for the 8 samples 0.1..0.8 it returns
(0.1, 0.3, 0.5, 0.7, 0.8); for the empty sequence it returns no summary. -/
theorem quartile_computation :
    (∀ xs : List ℚ, xs ≠ [] →
      ∃ s : List ℚ, s.Perm (xs.map (fun v => |v|)) ∧ s.Sorted (· ≤ ·) ∧
        analyzeSamples xs = some (s.getD 0 0, s.getD (s.length / 4) 0,
          s.getD (s.length / 2) 0, s.getD (3 * s.length / 4) 0,
          s.getD (s.length - 1) 0)) ∧
    analyzeSamples [1/10, 2/10, 3/10, 4/10, 5/10, 6/10, 7/10, 8/10] =
      some (1/10, 3/10, 5/10, 7/10, 8/10) ∧
    analyzeSamples ([] : List ℚ) = none := by
  refine ⟨?_, ?_, rfl⟩
  · intro xs h
    exact ⟨List.insertionSort (· ≤ ·) (xs.map (fun v => |v|)),
      List.perm_insertionSort _ _, List.sorted_insertionSort _ _,
      analyzeSamples_eq xs h⟩
  · norm_num [analyzeSamples, List.insertionSort, List.orderedInsert,
      abs_of_nonneg]

/-- Witness for `quartile_computation` at the singleton sample list. -/
theorem quartile_computation_witness :
    ∃ s : List ℚ, s.Perm ([(1:ℚ)/4].map (fun v => |v|)) ∧
        s.Sorted (· ≤ ·) ∧
      analyzeSamples [(1:ℚ)/4] = some (s.getD 0 0, s.getD (s.length / 4) 0,
        s.getD (s.length / 2) 0, s.getD (3 * s.length / 4) 0,
        s.getD (s.length - 1) 0) :=
  quartile_computation.1 [(1:ℚ)/4] (by simp)

theorem normalizeSample_abs_le {v : ℤ} (h1 : -32768 ≤ v) (h2 : v ≤ 32767) :
    |normalizeSample v| ≤ Rat.divInt 32768 32767 := by
  rw [normalizeSample, Rat.divInt_eq_div, Rat.divInt_eq_div, abs_div]
  push_cast
  rw [show |(32767 : ℚ)| = 32767 by norm_num]
  gcongr
  rw [abs_le]
  constructor
  · calc (-32768 : ℚ) = ((-32768 : ℤ) : ℚ) := by norm_num
      _ ≤ (v : ℚ) := by exact_mod_cast h1
  · calc (v : ℚ) ≤ ((32767 : ℤ) : ℚ) := by exact_mod_cast h2
      _ ≤ 32768 := by norm_num

/-- C10 counterexample: the claim says every summary value lies in [0,1]
and normalization never exceeds 1 for any representable `i16` value.  But
the code divides by `i16::MAX = 32767`, and the sample `i16::MIN = -32768`
normalizes to 32768/32767 > 1, so a payload containing it yields a summary
whose values exceed 1. -/
theorem loudness_range_counterexample :
    audioStats [(-32768 : ℤ)] =
      some (Rat.divInt 32768 32767, Rat.divInt 32768 32767,
        Rat.divInt 32768 32767, Rat.divInt 32768 32767,
        Rat.divInt 32768 32767) ∧
      (1 : ℚ) < Rat.divInt 32768 32767 := by
  constructor
  · decide
  · rw [Rat.divInt_eq_div]; norm_num

/-- C10 amended: for every non-empty readable payload of 16-bit signed
samples, every value of the five-number summary lies in
[0, 32768/32767]; the upper bound exceeds 1 and is attained at the sample
`i16::MIN = -32768` (normalization divides by `i16::MAX = 32767`). -/
theorem loudness_range_amended (raw : List ℤ) (hne : raw ≠ [])
    (hb : ∀ s ∈ raw, -32768 ≤ s ∧ s ≤ 32767) :
    ∃ a b c d e, audioStats raw = some (a, b, c, d, e) ∧
      ∀ q ∈ [a, b, c, d, e], 0 ≤ q ∧ q ≤ Rat.divInt 32768 32767 := by
  have hmapne : ¬ raw.map normalizeSample = [] := by simp [hne]
  have hslen :
      (List.insertionSort (· ≤ ·)
        ((raw.map normalizeSample).map (fun s => |s|))).length = raw.length := by
    rw [length_insertionSort_map_abs, List.length_map]
  have hL : 1 ≤ raw.length := by
    cases raw with
    | nil => exact absurd rfl hne
    | cons x xs => simp
  have key : ∀ k, k < raw.length →
      0 ≤ (List.insertionSort (· ≤ ·)
          ((raw.map normalizeSample).map (fun s => |s|))).getD k 0 ∧
        (List.insertionSort (· ≤ ·)
          ((raw.map normalizeSample).map (fun s => |s|))).getD k 0 ≤
          Rat.divInt 32768 32767 := by
    intro k hk
    have hmem := getD_insertionSort_mem (raw.map normalizeSample) k
      (by rw [List.length_map]; exact hk)
    rw [List.mem_map] at hmem
    obtain ⟨y, hy, hEq⟩ := hmem
    rw [List.mem_map] at hy
    obtain ⟨v, hv, rfl⟩ := hy
    obtain ⟨hb1, hb2⟩ := hb v hv
    exact ⟨hEq ▸ abs_nonneg _, hEq ▸ normalizeSample_abs_le hb1 hb2⟩
  refine ⟨_, _, _, _, _, analyzeSamples_eq _ hmapne, ?_⟩
  intro q hq
  simp only [List.mem_cons, List.not_mem_nil, or_false] at hq
  rcases hq with rfl | rfl | rfl | rfl | rfl
  · exact key 0 (by omega)
  · exact key _ (by rw [hslen]; omega)
  · exact key _ (by rw [hslen]; omega)
  · exact key _ (by rw [hslen]; omega)
  · exact key _ (by rw [hslen]; omega)

/-- Witness for `loudness_range_amended` at the one-sample payload `[0]`. -/
theorem loudness_range_amended_witness :
    ∃ a b c d e, audioStats [(0 : ℤ)] = some (a, b, c, d, e) ∧
      ∀ q ∈ [a, b, c, d, e], 0 ≤ q ∧ q ≤ Rat.divInt 32768 32767 :=
  loudness_range_amended [0] (by simp) (by decide)

/-! ## Recording catalog scan

Model of the directory scan of `BarkViewer::new` (`viewer.rs:56-114`).  A
directory entry is a path plus its file name (`path.file_name()`) plus the
result of `hound::WavReader::open`: `none` when the payload cannot be
opened/decoded, otherwise the sample rate and the decoded `i16` samples
(a single channel; `reader.duration()` = sample count).  The walk order of
`WalkDir` is the order of the input list. -/

structure DirEntry where
  path : List Char
  name : List Char
  payload : Option (ℕ × List ℤ)
deriving DecidableEq, Repr

/-- One catalog entry (`Recording` of `viewer.rs:10-17`; the `waveform`
field is always `Vec::new()` in the scan and is omitted). -/
structure Recording where
  timestamp : Timestamp
  path : List Char
  duration : ℚ
  audio_stats : Option (ℚ × ℚ × ℚ × ℚ × ℚ)
deriving DecidableEq, Repr

/-- The `extension() == "wav"` filter of `viewer.rs:63` expressed on the
file name: the part after the last dot is `wav` and the stem is
non-empty (Rust yields no extension for a bare `.wav`). -/
def hasWavExt (name : List Char) : Bool :=
  match name.reverse with
  | 'v' :: 'a' :: 'w' :: '.' :: stem => !stem.isEmpty
  | _ => false

/-- The `filename.starts_with("bark_")` filter of `viewer.rs:66`. -/
def startsWithBark (name : List Char) : Bool :=
  match name with
  | 'b' :: 'a' :: 'r' :: 'k' :: '_' :: _ => true
  | _ => false

/-- The loop body of `viewer.rs:60-111` for one directory entry: filter on
extension and prefix, open the payload (skip the entry if that fails),
compute duration and statistics, decode the timestamp from the name (skip
the entry if the parse fails), and emit the `Recording`.  The
`strip_prefix`/`strip_suffix` + `parse_from_str` composition at
`viewer.rs:96-99` is `decodeFilename` (both unwraps are guarded by the
two filters). -/
def processEntry (e : DirEntry) : List Recording :=
  if hasWavExt e.name && startsWithBark e.name then
    match e.payload with
    | some (rate, samples) =>
      let duration := Rat.divInt samples.length rate
      let stats := audioStats samples
      match decodeFilename e.name with
      | some ts => [⟨ts, e.path, duration, stats⟩]
      | none => []
    | none => []
  else []

/-- The recordings vector in walk order, before sorting. -/
def preScan (entries : List DirEntry) : List Recording :=
  entries.flatMap processEntry

/-- Linearization of a timestamp for ordering; on calendar-valid
timestamps it is strictly monotone in chronological order, so sorting by
it models `sort_by_key(|r| r.timestamp)` on `chrono::DateTime` values. -/
def Timestamp.key (t : Timestamp) : ℕ :=
  ((((t.year * 13 + t.month) * 32 + t.day) * 24 + t.hour) * 60 + t.minute)
    * 60 + t.second

/-- The comparison used by the sort: ascending timestamp. -/
def recLE (a b : Recording) : Bool :=
  decide (a.timestamp.key ≤ b.timestamp.key)

/-- The full scan of `viewer.rs:56-114`: gather recordings in walk order,
then `recordings.sort_by_key(|r| r.timestamp)` — a stable sort, modelled
by `List.mergeSort`. -/
def scanRecordings (entries : List DirEntry) : List Recording :=
  (preScan entries).mergeSort recLE

theorem recLE_trans : ∀ a b c : Recording,
    recLE a b = true → recLE b c = true → recLE a c = true := by
  intro a b c
  simp only [recLE, decide_eq_true_eq]
  omega

theorem recLE_total : ∀ a b : Recording, (recLE a b || recLE b a) = true := by
  intro a b
  simp only [recLE, Bool.or_eq_true, decide_eq_true_eq]
  omega

/-- C4: catalog scan determinism and order.  First conjunct: the scan
result is sorted ascending by timestamp.  Second: scanning the same
unchanged contents twice yields identical ordered sequences.  Third: ties
between equal timestamps keep their stable (walk-order) relative order.
Fourth: a directory with zero matching files yields an empty result, not
an error.  Fifth: the two malformed names from the specification are
excluded without aborting. -/
theorem catalog_scan :
    (∀ entries : List DirEntry,
      List.Sorted (fun a b : Recording => a.timestamp.key ≤ b.timestamp.key)
        (scanRecordings entries)) ∧
    (∀ entries : List DirEntry,
      scanRecordings entries = scanRecordings entries) ∧
    (∀ (entries : List DirEntry) (r1 r2 : Recording),
      [r1, r2].Sublist (preScan entries) →
      r1.timestamp.key = r2.timestamp.key →
      [r1, r2].Sublist (scanRecordings entries)) ∧
    (∀ entries : List DirEntry,
      (∀ e ∈ entries, (hasWavExt e.name && startsWithBark e.name) = false) →
      scanRecordings entries = []) ∧
    scanRecordings
        [⟨"bark_not_a_date.wav".toList, "bark_not_a_date.wav".toList,
            some (1, [])⟩,
          ⟨"notabark_20240101_1_00_00_am.wav".toList,
            "notabark_20240101_1_00_00_am.wav".toList, some (1, [])⟩] =
      [] := by
  have hmal : preScan
      [⟨"bark_not_a_date.wav".toList, "bark_not_a_date.wav".toList,
          some (1, [])⟩,
        ⟨"notabark_20240101_1_00_00_am.wav".toList,
          "notabark_20240101_1_00_00_am.wav".toList, some (1, [])⟩] = [] := by
    decide
  refine ⟨?_, fun _ => rfl, ?_, ?_, by rw [scanRecordings, hmal]; simp⟩
  · intro entries
    exact (List.sorted_mergeSort recLE_trans recLE_total
      (preScan entries)).imp (by simp [recLE])
  · intro entries r1 r2 hsub hkey
    refine List.sublist_mergeSort recLE_trans recLE_total ?_ hsub
    simp [recLE, hkey]
  · intro entries hnone
    have hpre : preScan entries = [] := by
      rw [preScan, List.flatMap_eq_nil_iff]
      intro e he
      rw [processEntry, hnone e he]
      rfl
    rw [scanRecordings, hpre]
    simp

/-- Witness for `catalog_scan`: two files with the same name (hence equal
decoded timestamps) in different subdirectories keep their walk order;
and a directory whose only entry has no `.wav` extension scans to empty. -/
theorem catalog_scan_witness :
    ([⟨⟨2024, 1, 1, 1, 0, 0⟩, "a/bark_20240101_01_00_00_am.wav".toList,
          Rat.divInt 0 1, none⟩,
        ⟨⟨2024, 1, 1, 1, 0, 0⟩, "b/bark_20240101_01_00_00_am.wav".toList,
          Rat.divInt 0 1, none⟩] : List Recording).Sublist
        (scanRecordings
          [⟨"a/bark_20240101_01_00_00_am.wav".toList,
              "bark_20240101_01_00_00_am.wav".toList, some (1, [])⟩,
            ⟨"b/bark_20240101_01_00_00_am.wav".toList,
              "bark_20240101_01_00_00_am.wav".toList, some (1, [])⟩]) ∧
      scanRecordings [⟨"bark_x.txt".toList, "bark_x.txt".toList, none⟩] =
        [] := by
  constructor
  · exact catalog_scan.2.2.1 _ _ _ (by decide) (by decide)
  · exact catalog_scan.2.2.2.1 _ (by decide)

/-- C8 counterexample: the claim says a file whose name decodes to a valid
timestamp but whose payload is unreadable still appears in the scan with
`loudness_summary = None`.  In the code the `WavReader::open` success is a
guard around the whole push (`viewer.rs:67`), so such a file is omitted
entirely: the scan of a directory holding only that file is empty. -/
theorem payload_error_counterexample :
    decodeFilename "bark_20240101_01_00_00_am.wav".toList =
        some ⟨2024, 1, 1, 1, 0, 0⟩ ∧
      scanRecordings
        [⟨"bark_20240101_01_00_00_am.wav".toList,
            "bark_20240101_01_00_00_am.wav".toList, none⟩] = [] := by
  have h : preScan
      [⟨"bark_20240101_01_00_00_am.wav".toList,
          "bark_20240101_01_00_00_am.wav".toList, none⟩] = [] := by decide
  exact ⟨by decide, by rw [scanRecordings, h]; simp⟩

/-- C8 amended: a file whose payload cannot be opened is omitted from the
scan result entirely (the scan itself never aborts); a file whose payload
opens but is empty still yields its event, with `loudness_summary = none`
and duration 0. -/
theorem payload_error_amended :
    (∀ e : DirEntry, e.payload = none → processEntry e = []) ∧
    (∀ (e : DirEntry) (rate : ℕ) (ts : Timestamp),
      e.payload = some (rate, []) →
      (hasWavExt e.name && startsWithBark e.name) = true →
      decodeFilename e.name = some ts →
      processEntry e = [⟨ts, e.path, 0, none⟩]) := by
  constructor
  · intro e he
    simp [processEntry, he]
  · intro e rate ts hp hf hd
    simp [processEntry, hp, hf, hd, audioStats, analyzeSamples,
      Rat.zero_divInt]

/-- Witness for `payload_error_amended`: an unreadable `bark_` file is
dropped; a readable empty one keeps its event with no summary. -/
theorem payload_error_amended_witness :
    processEntry
        ⟨"bark_20240101_01_00_00_am.wav".toList,
          "bark_20240101_01_00_00_am.wav".toList, none⟩ = [] ∧
      processEntry
        ⟨"bark_20240101_01_00_00_am.wav".toList,
          "bark_20240101_01_00_00_am.wav".toList, some (44100, [])⟩ =
        [⟨⟨2024, 1, 1, 1, 0, 0⟩, "bark_20240101_01_00_00_am.wav".toList, 0,
          none⟩] :=
  ⟨payload_error_amended.1 _ rfl,
    payload_error_amended.2 _ 44100 _ rfl (by decide) (by decide)⟩

/-! ## Timeline window: zoom, pan, tick intervals

Models of the interactive handlers of `BarkViewer::update`.  Pixel values
and scroll fractions are exact rationals; the `as i64` casts on these
small magnitudes never saturate, so they are modelled as plain truncation
toward zero (`truncToInt`). -/

/-- The ctrl+scroll zoom handler of `viewer.rs:209-225`: `zoom_center` is
the hover fraction within the rect (`hover_x / rect.width()` ∈ [0,1]),
`factor` the duration multiplier.  The code computes
`center_time = start + (end - start) * (zoom_center as i64) / 100` and
`new_duration = ((end - start) as f32 * factor) as i64`, then re-centers
both bounds around `center_time` (chrono `Duration / 2` truncates). -/
def zoomStep (s e : ℤ) (factor pivotFrac : ℚ) : ℤ × ℤ :=
  let zc : ℤ := truncToInt pivotFrac
  let center : ℤ := s + Int.tdiv ((e - s) * zc) 100
  let newDur : ℤ := truncToInt (((e - s : ℤ) : ℚ) * factor)
  (center - Int.tdiv newDur 2, center + Int.tdiv newDur 2)

/-- The scroll/drag pan handler of `viewer.rs:227-238`: shift both bounds
by `-(total_delta / rect.width() * time_width) as i64` seconds. -/
def panStep (s e : ℤ) (totalDelta width : ℚ) : ℤ × ℤ :=
  let dt : ℤ := truncToInt (-(totalDelta / width * ((e - s : ℤ) : ℚ)))
  (s + dt, e + dt)

/-- C6 failing input: the claim says `zoom(factor, pivot_fraction)` holds
the pivot's absolute timestamp fixed, so `zoom(2, 0.5)` then
`zoom(0.5, 0.5)` restores the window.  In the code `zoom_center as i64`
truncates the hover fraction to 0 (and divides by 100 as if it were a
percentage), so the new window is centered on the old `visible_start`
instead of the pivot: starting from [0, 3600], the two zooms produce
[-3600, 3600] and then [-5400, -1800], not the original window; the pivot
instant 1800 is not held fixed. -/
theorem zoom_pivot_failing_input :
    zoomStep 0 3600 2 (1/2) = (-3600, 3600) ∧
      zoomStep (-3600) 3600 (1/2) (1/2) = (-5400, -1800) ∧
      ((-5400 : ℤ), (-1800 : ℤ)) ≠ ((0 : ℤ), (3600 : ℤ)) := by
  have hzc : truncToInt ((1 : ℚ)/2) = 0 := by
    rw [truncToInt, if_pos (by norm_num)]
    norm_num
  refine ⟨?_, ?_, by decide⟩
  · have hd : truncToInt (((3600 - 0 : ℤ) : ℚ) * 2) = 7200 := by
      rw [truncToInt, if_pos (by norm_num)]
      norm_num
    rw [zoomStep, hzc, hd]
    decide
  · have hd : truncToInt (((3600 - (-3600) : ℤ) : ℚ) * (1/2)) = 3600 := by
      rw [truncToInt, if_pos (by norm_num)]
      norm_num
    rw [zoomStep, hzc, hd]
    decide

/-- C9: pan always preserves the window duration (so it cannot make the
window degenerate), but zoom has no guard: on the failing input, a window
of 1 second zoomed in by the scroll factor 0.8 collapses to
`visible_start = visible_end` instead of the operation being rejected. -/
theorem window_degeneracy_failing_input :
    (∀ (s e : ℤ) (td w : ℚ),
      (panStep s e td w).2 - (panStep s e td w).1 = e - s) ∧
      zoomStep 0 1 (4/5) (1/2) = (0, 0) := by
  constructor
  · intro s e td w
    simp [panStep]
  · have hzc : truncToInt ((1 : ℚ)/2) = 0 := by
      rw [truncToInt, if_pos (by norm_num)]
      norm_num
    have hd : truncToInt (((1 - 0 : ℤ) : ℚ) * (4/5)) = 0 := by
      rw [truncToInt, if_pos (by norm_num)]
      norm_num
    rw [zoomStep, hzc, hd]
    decide

/-- The tick-interval computation of `viewer.rs:297-310`:
`duration_mins = (end - start) / 60.0`,
`max_labels = floor(width / min_pixels_per_label)`,
`raw_interval = max(ceil(duration_mins / max_labels), 15)`,
`interval_mins = ((raw_interval + 14) / 15) * 15` (Rust `i64` division
truncates toward zero). -/
def intervalMins (startTs endTs : ℤ) (width perLabel : ℚ) : ℤ :=
  let durationMins : ℚ := ((endTs - startTs : ℤ) : ℚ) / 60
  let maxLabels : ℤ := ⌊width / perLabel⌋
  let rawInterval : ℤ := max ⌈durationMins / (maxLabels : ℚ)⌉ 15
  Int.tdiv (rawInterval + 14) 15 * 15

/-- The loop start `(start_ts / 60 / interval_mins) * interval_mins` of
`viewer.rs:313`. -/
def tickStart (startTs I : ℤ) : ℤ := Int.tdiv (Int.tdiv startTs 60) I * I

/-- Number of tick labels drawn by the loop of `viewer.rs:317-345`: the
loop walks `start_mins..=end_mins` in steps of `interval_mins` and draws
a label only when the tick's x position lies within the rect, i.e. when
`start_ts <= 60*mins <= end_ts`. -/
def numTicks (startTs endTs I : ℤ) : ℕ :=
  let a := tickStart startTs I
  let b := Int.tdiv endTs 60
  if a ≤ b then
    ((Finset.range ((b - a).toNat / I.toNat + 1)).filter fun k : ℕ =>
      startTs ≤ 60 * (a + (k : ℤ) * I) ∧ 60 * (a + (k : ℤ) * I) ≤ endTs).card
  else 0

/-- C5 counterexample: the claim says the number of ticks across the
window never exceeds `pixel_width / min_pixels_per_label`.  For a window
of 150 minutes at 800 px with 80 px per label (10 labels allowed), the
computed interval is 15 minutes and the loop draws 11 aligned ticks
(0, 15, ..., 150) — one more than 800/80 = 10. -/
theorem tick_interval_counterexample :
    intervalMins 0 9000 800 80 = 15 ∧
      numTicks 0 9000 (intervalMins 0 9000 800 80) = 11 ∧
      (800 : ℚ) / 80 = 10 ∧
      ¬ ((numTicks 0 9000 (intervalMins 0 9000 800 80) : ℚ) ≤
          (800 : ℚ) / 80) := by
  have hfloor : (⌊(800 : ℚ) / 80⌋ : ℤ) = 10 := by norm_num
  have hceil : (⌈(((9000 - 0 : ℤ) : ℚ) / 60) / ((10 : ℤ) : ℚ)⌉ : ℤ) = 15 := by
    norm_num
  have hI : intervalMins 0 9000 800 80 = 15 := by
    rw [intervalMins, hfloor, hceil]
    decide
  have hN : numTicks 0 9000 (intervalMins 0 9000 800 80) = 11 := by
    rw [hI]
    decide
  refine ⟨hI, hN, by norm_num, ?_⟩
  rw [hN]
  norm_num

theorem round_up_15 (raw : ℤ) (h : 15 ≤ raw) :
    Int.tdiv (raw + 14) 15 * 15 % 15 = 0 ∧
      15 ≤ Int.tdiv (raw + 14) 15 * 15 ∧
      raw ≤ Int.tdiv (raw + 14) 15 * 15 := by
  rw [Int.tdiv_eq_ediv (by omega) (by omega)]
  omega

theorem ticks_core (startTs endTs I L : ℤ) (hI : 0 < I) (hL : 0 ≤ L)
    (hbound : endTs - startTs ≤ 60 * I * L) :
    numTicks startTs endTs I ≤ L.toNat + 1 := by
  simp only [numTicks]
  split
  case isTrue hab =>
    set a := tickStart startTs I with ha
    set S := ((Finset.range ((Int.tdiv endTs 60 - a).toNat / I.toNat + 1)).filter
      fun k : ℕ =>
        startTs ≤ 60 * (a + (k : ℤ) * I) ∧ 60 * (a + (k : ℤ) * I) ≤ endTs)
      with hSdef
    by_cases hS : S.Nonempty
    · have hk0S := S.min'_mem hS
      have hk0 : startTs ≤ 60 * (a + (S.min' hS : ℤ) * I) :=
        (Finset.mem_filter.mp hk0S).2.1
      have hsub : S ⊆ Finset.Icc (S.min' hS) (S.min' hS + L.toNat) := by
        intro k hk
        have h1 : S.min' hS ≤ k := S.min'_le k hk
        have h2 : 60 * (a + (k : ℤ) * I) ≤ endTs :=
          (Finset.mem_filter.mp hk).2.2
        have h5 : (60 * I) * ((k : ℤ) - (S.min' hS : ℤ)) ≤ (60 * I) * L := by
          have heq : (60 * I) * ((k : ℤ) - (S.min' hS : ℤ)) =
              60 * (a + (k : ℤ) * I) - 60 * (a + (S.min' hS : ℤ) * I) := by
            ring
          rw [heq]
          linarith
        have h4 : (k : ℤ) - (S.min' hS : ℤ) ≤ L :=
          le_of_mul_le_mul_left h5 (by positivity)
        exact Finset.mem_Icc.mpr ⟨h1, by omega⟩
      calc S.card ≤ (Finset.Icc (S.min' hS) (S.min' hS + L.toNat)).card :=
            Finset.card_le_card hsub
        _ = L.toNat + 1 := by rw [Nat.card_Icc]; omega
    · rw [Finset.not_nonempty_iff_eq_empty] at hS
      rw [hS]
      simp
  case isFalse hab => omega

/-- C5 amended: for every window with `visible_start < visible_end` and
positive `min_pixels_per_label` not exceeding `pixel_width` (so at least
one label fits), the computed tick interval is a multiple of 15 minutes
and never below 15 minutes, and the number of drawn ticks is at most
`floor(pixel_width / min_pixels_per_label) + 1` — one more than the
claimed bound, which the loop alignment can exceed by exactly one. -/
theorem tick_interval_amended (startTs endTs : ℤ) (width perLabel : ℚ)
    (hlt : startTs < endTs) (hp : 0 < perLabel) (hw : perLabel ≤ width) :
    intervalMins startTs endTs width perLabel % 15 = 0 ∧
      15 ≤ intervalMins startTs endTs width perLabel ∧
      numTicks startTs endTs (intervalMins startTs endTs width perLabel) ≤
        (⌊width / perLabel⌋).toNat + 1 := by
  have hL1 : 1 ≤ ⌊width / perLabel⌋ :=
    Int.le_floor.mpr (by exact_mod_cast (one_le_div hp).mpr hw)
  have hcore := round_up_15
    (max ⌈(((endTs - startTs : ℤ) : ℚ) / 60) /
      ((⌊width / perLabel⌋ : ℤ) : ℚ)⌉ 15) (le_max_right _ _)
  have hIdef : intervalMins startTs endTs width perLabel =
      Int.tdiv (max ⌈(((endTs - startTs : ℤ) : ℚ) / 60) /
        ((⌊width / perLabel⌋ : ℤ) : ℚ)⌉ 15 + 14) 15 * 15 := rfl
  refine ⟨by rw [hIdef]; exact hcore.1, by rw [hIdef]; exact hcore.2.1, ?_⟩
  have hLpos : (0 : ℚ) < ((⌊width / perLabel⌋ : ℤ) : ℚ) := by
    have : (1 : ℚ) ≤ ((⌊width / perLabel⌋ : ℤ) : ℚ) := by exact_mod_cast hL1
    linarith
  have hchain : (((endTs - startTs : ℤ) : ℚ) / 60) /
      ((⌊width / perLabel⌋ : ℤ) : ℚ) ≤
      ((intervalMins startTs endTs width perLabel : ℤ) : ℚ) := by
    rw [hIdef]
    calc (((endTs - startTs : ℤ) : ℚ) / 60) /
          ((⌊width / perLabel⌋ : ℤ) : ℚ) ≤
        (⌈(((endTs - startTs : ℤ) : ℚ) / 60) /
          ((⌊width / perLabel⌋ : ℤ) : ℚ)⌉ : ℚ) := Int.le_ceil _
      _ ≤ ((max ⌈(((endTs - startTs : ℤ) : ℚ) / 60) /
          ((⌊width / perLabel⌋ : ℤ) : ℚ)⌉ 15 : ℤ) : ℚ) := by
          exact_mod_cast le_max_left _ _
      _ ≤ _ := by exact_mod_cast hcore.2.2
  have hq : ((endTs - startTs : ℤ) : ℚ) / 60 ≤
      ((intervalMins startTs endTs width perLabel : ℤ) : ℚ) *
        ((⌊width / perLabel⌋ : ℤ) : ℚ) := (div_le_iff₀ hLpos).mp hchain
  have hbound : endTs - startTs ≤
      60 * intervalMins startTs endTs width perLabel * ⌊width / perLabel⌋ := by
    have h60 : ((endTs - startTs : ℤ) : ℚ) ≤
        60 * (((intervalMins startTs endTs width perLabel : ℤ) : ℚ) *
          ((⌊width / perLabel⌋ : ℤ) : ℚ)) := by
      rw [div_le_iff₀ (by norm_num : (0 : ℚ) < 60)] at hq
      linarith
    have h61 : ((endTs - startTs : ℤ) : ℚ) ≤
        ((60 * intervalMins startTs endTs width perLabel *
          ⌊width / perLabel⌋ : ℤ) : ℚ) := by
      push_cast
      push_cast at h60
      linarith
    exact_mod_cast h61
  exact ticks_core startTs endTs _ _ (by rw [hIdef]; omega) (by omega) hbound

/-- Witness for `tick_interval_amended` at a 1-hour window, 800 px,
80 px per label. -/
theorem tick_interval_amended_witness :
    intervalMins 0 3600 800 80 % 15 = 0 ∧
      15 ≤ intervalMins 0 3600 800 80 ∧
      numTicks 0 3600 (intervalMins 0 3600 800 80) ≤
        (⌊(800 : ℚ) / 80⌋).toNat + 1 :=
  tick_interval_amended 0 3600 800 80 (by decide) (by norm_num)
    (by norm_num)
